/-
Verification of the protocol codec and request-dispatch engine of the
udp-time-app repository (client `incode`, server `decode`/`dispatch`,
the bounded big-endian integer codec `toBytes`/`toUint32`, the lap-timer
table `MeasureTimeLap`, the EU DST predicate `is_dst_eu`, and the city
normalization `normalizeCity`).

Bytes on the wire are C++ `char` values and are modelled as `Int`
(range −128..127 for real datagrams; the functions below only ever
compare them with 0, so no range constraint is needed).  The unsigned
bytes of the integer codec are modelled as `Nat`.
-/
import Mathlib

/-- Request codes for time server operations (enum `ReqCode : char` in
`Server/utils.h` and `Client/utils.h`). -/
inductive ReqCode where
  | error
  | default
  | getTime
  | getTimeWithoutDate
  | getTimeSinceEpoch
  | getClientToServerDelayEstimation
  | measuureRTT
  | getTimeWithoutDateOrSeconds
  | getYear
  | getMonthAndDay
  | getSecondsSinceBeginningOfMonth
  | getWeekOfYear
  | getDaylightSavings
  | getTimeWithoutDateInCity
  | measureTimeLap
deriving DecidableEq

/-- The numeric (char) value of each `ReqCode` enumerator:
`Error = -1, Default = 0, GetTime = 1, …, MeasureTimeLap = 13`. -/
def ReqCode.toByte : ReqCode → Int
  | .error => -1
  | .default => 0
  | .getTime => 1
  | .getTimeWithoutDate => 2
  | .getTimeSinceEpoch => 3
  | .getClientToServerDelayEstimation => 4
  | .measuureRTT => 5
  | .getTimeWithoutDateOrSeconds => 6
  | .getYear => 7
  | .getMonthAndDay => 8
  | .getSecondsSinceBeginningOfMonth => 9
  | .getWeekOfYear => 10
  | .getDaylightSavings => 11
  | .getTimeWithoutDateInCity => 12
  | .measureTimeLap => 13

/-- Client-side request struct (`TimeClient::Request`): a request code and
an ordered list of string arguments (each argument a list of char values). -/
structure ClientRequest where
  code : ReqCode
  args : List (List Int)
deriving DecidableEq

/-- Server-side decoded request (`TimeServer::Request`).  The decoded code
is kept as the raw char value: the C++ `static_cast<ReqCode>(req[0])` is
value-preserving for every char, including values outside the enumerators. -/
structure ServerRequest where
  code : Int
  params : List (List Int)
deriving DecidableEq

/-- The argument part of `TimeClient::incode` (Client/client.cpp): for each
argument, one null separator byte followed by the argument's bytes. -/
def encodeArgs : List (List Int) → List Int
  | [] => []
  | a :: rest => 0 :: a ++ encodeArgs rest

/-- `TimeClient::incode` (Client/client.cpp): the code byte, then each
argument preceded by a single null byte. -/
def incode (r : ClientRequest) : List Int :=
  r.code.toByte :: encodeArgs r.args

/-- `dropWhile` never lengthens a list (used for the termination of the
parameter scan). -/
theorem dropWhile_length_le {α : Type} (p : α → Bool) :
    ∀ l : List α, (l.dropWhile p).length ≤ l.length
  | [] => by simp [List.dropWhile]
  | a :: l => by
    simp only [List.dropWhile]
    split
    · exact Nat.le_succ_of_le (dropWhile_length_le p l)
    · simp

/-- The parameter scan of `TimeServer::decode` (Server/server.cpp), applied
to the bytes after the code byte: a non-null byte is skipped; at a null
byte, if any byte follows, the run up to the next null byte (or end of
buffer) is emitted as one parameter (the run may be empty) and the scan
resumes at the byte that stopped the run. -/
def scanParams : List Int → List (List Int)
  | [] => []
  | b :: rest =>
    if b = 0 then
      match rest with
      | [] => []
      | r :: rs =>
        ((r :: rs).takeWhile (fun x => x ≠ 0)) ::
          scanParams ((r :: rs).dropWhile (fun x => x ≠ 0))
    else scanParams rest
termination_by l => l.length
decreasing_by
  · have h := dropWhile_length_le (fun x => decide (x ≠ 0)) (r :: rs)
    simp only [List.length_cons] at h ⊢
    omega
  · simp

@[simp]
theorem scanParams_nil : scanParams [] = [] := by
  rw [scanParams]

@[simp]
theorem scanParams_zero_nil : scanParams [0] = [] := by
  rw [scanParams]
  simp

@[simp]
theorem scanParams_zero_cons (r : Int) (rs : List Int) :
    scanParams (0 :: r :: rs) =
      ((r :: rs).takeWhile (fun x => x ≠ 0)) ::
        scanParams ((r :: rs).dropWhile (fun x => x ≠ 0)) := by
  rw [scanParams]
  simp

@[simp]
theorem scanParams_cons_ne (b : Int) (rest : List Int) (h : b ≠ 0) :
    scanParams (b :: rest) = scanParams rest := by
  rw [scanParams.eq_def]
  simp [h]

/-- `TimeServer::decode` (Server/server.cpp): an empty buffer decodes to
code `Error`(-1); otherwise the first byte is the code and the remaining
bytes are scanned for null-delimited parameter runs. -/
def decode (req : List Int) : ServerRequest :=
  { code := match req with
            | [] => -1
            | b :: _ => b
    params := scanParams req.tail }

/-- The handler invocation selected by `TimeServer::dispatch`
(Server/server.cpp).  The handlers themselves read the wall clock / tick
counter and are not part of the dispatch decision being verified; the
city handler records the parameter it is passed and the lap handler the
sender endpoint it is passed. -/
inductive HandlerCall where
  | getTime
  | getTimeWithoutDate
  | getTimeSinceEpoch
  | getClientToServerDelayEstimation
  | measureRTT
  | getTimeWithoutDateOrSeconds
  | getYear
  | getMonthAndDay
  | getSecondsSinceBeginningOfMonth
  | getWeekOfYear
  | getDaylightSavings
  | getTimeWithoutDateInCity (city : List Int)
  | measureTimeLap (addr port : Nat)
deriving DecidableEq

/-- Outcome of `TimeServer::dispatch`: a response produced by a handler, a
silent fall-through (`return false`, no datagram sent), or the unguarded
out-of-bounds access `req.params[0]` on an empty parameter vector. -/
inductive DispatchResult where
  | sends (h : HandlerCall)
  | noResponse
  | oobParamAccess
deriving DecidableEq

/-- `TimeServer::dispatch` (Server/server.cpp): a switch over the thirteen
handled code values 1..13.  Case 12 indexes `req.params[0]` without a
bounds check (modelled as `oobParamAccess` when `params` is empty); case
13 passes the sender's address and port; every other code value falls
through with no response. -/
def dispatch (req : ServerRequest) (senderAddr senderPort : Nat) : DispatchResult :=
  if req.code = 1 then .sends .getTime
  else if req.code = 2 then .sends .getTimeWithoutDate
  else if req.code = 3 then .sends .getTimeSinceEpoch
  else if req.code = 4 then .sends .getClientToServerDelayEstimation
  else if req.code = 5 then .sends .measureRTT
  else if req.code = 6 then .sends .getTimeWithoutDateOrSeconds
  else if req.code = 7 then .sends .getYear
  else if req.code = 8 then .sends .getMonthAndDay
  else if req.code = 9 then .sends .getSecondsSinceBeginningOfMonth
  else if req.code = 10 then .sends .getWeekOfYear
  else if req.code = 11 then .sends .getDaylightSavings
  else if req.code = 12 then
    match req.params with
    | [] => .oobParamAccess
    | c :: _ => .sends (.getTimeWithoutDateInCity c)
  else if req.code = 13 then .sends (.measureTimeLap senderAddr senderPort)
  else .noResponse

/-- `toBytes` (Server/utils.h): convert a uint32 to its four network-order
(big-endian) bytes and strip the leading zero bytes.  Note that for the
value 0 all four bytes are stripped and the result is empty. -/
def toBytes (val : Nat) : List Nat :=
  let v := val % 4294967296
  ([v / 16777216, v / 65536 % 256, v / 256 % 256, v % 256]).dropWhile (fun b => b = 0)

/-- Big-endian value of a byte list (the `memcpy` + `ntohl` reinterpretation
in `toUint32`); each element is taken mod 256 as an unsigned byte. -/
def beVal (bs : List Nat) : Nat :=
  bs.foldl (fun a b => a * 256 + b % 256) 0

/-- `toUint32` (Client/utils.cpp): a buffer that is empty or longer than 4
bytes is rejected (the C++ prints an error and returns 0); otherwise the
buffer is left-padded with zero bytes to length 4 and reinterpreted as a
big-endian uint32. -/
def toUint32 (bytes : List Nat) : Nat :=
  if bytes.length > 4 ∨ bytes.length = 0 then 0
  else beVal (List.replicate (4 - bytes.length) 0 ++ bytes)

example : toBytes 0 = [] := by decide
example : toBytes 1704628800 = [0x65, 0x9A, 0x92, 0x40] := by decide
example : toUint32 [0x65, 0x9A, 0x92, 0x40] = 1704628800 := by decide
example : decode [1, 0, 97, 98] = ⟨1, [[97, 98]]⟩ := by
  simp [decode, List.takeWhile, List.dropWhile]
example : decode [1, 0] = ⟨1, []⟩ := by simp [decode]
example : decode [1, 0, 0, 97] = ⟨1, [[], [97]]⟩ := by
  simp [decode, List.takeWhile, List.dropWhile]
example : decode [] = ⟨-1, []⟩ := by simp [decode]
example : decode [0] = ⟨0, []⟩ := by simp [decode]

/-- `takeWhile` passes over a prefix whose elements all satisfy the
predicate. -/
theorem takeWhile_append_of_all {α : Type} (p : α → Bool) :
    ∀ (l1 l2 : List α), (∀ x ∈ l1, p x = true) →
      (l1 ++ l2).takeWhile p = l1 ++ l2.takeWhile p
  | [], _, _ => by simp
  | a :: l1, l2, h => by
    simp only [List.cons_append]
    rw [List.takeWhile_cons_of_pos (h a (List.mem_cons_self a l1))]
    rw [takeWhile_append_of_all p l1 l2 (fun x hx => h x (List.mem_cons_of_mem a hx))]

/-- `dropWhile` drops a prefix whose elements all satisfy the predicate. -/
theorem dropWhile_append_of_all {α : Type} (p : α → Bool) :
    ∀ (l1 l2 : List α), (∀ x ∈ l1, p x = true) →
      (l1 ++ l2).dropWhile p = l2.dropWhile p
  | [], _, _ => by simp
  | a :: l1, l2, h => by
    simp only [List.cons_append]
    rw [List.dropWhile_cons_of_pos (h a (List.mem_cons_self a l1))]
    exact dropWhile_append_of_all p l1 l2 (fun x hx => h x (List.mem_cons_of_mem a hx))

/-- The encoding of a non-empty argument list is non-empty (it starts with
the null separator). -/
theorem encodeArgs_cons (a : List Int) (t : List (List Int)) :
    encodeArgs (a :: t) = 0 :: (a ++ encodeArgs t) := rfl

/-- `scanParams` on a null byte followed by a non-empty remainder takes the
run up to the next null byte. -/
theorem scanParams_zero_ne_nil (l : List Int) (h : l ≠ []) :
    scanParams (0 :: l) =
      (l.takeWhile (fun x => x ≠ 0)) :: scanParams (l.dropWhile (fun x => x ≠ 0)) := by
  cases l with
  | nil => exact absurd rfl h
  | cons r rs => exact scanParams_zero_cons r rs

/-- Scanning the encoding of an argument list recovers the arguments,
provided no argument contains a null byte and the final argument is
non-empty. -/
theorem scanParams_encodeArgs :
    ∀ ps : List (List Int), (∀ q ∈ ps, (0 : Int) ∉ q) →
      ps.getLast? ≠ some [] → scanParams (encodeArgs ps) = ps
  | [], _, _ => scanParams_nil
  | q :: t, hnull, hlast => by
    have hq : ∀ x ∈ q, (fun x : Int => decide (x ≠ 0)) x = true := by
      intro x hx
      simp only [decide_eq_true_eq]
      intro h0
      exact hnull q (List.mem_cons_self q t) (h0 ▸ hx)
    rw [encodeArgs_cons]
    cases t with
    | nil =>
      have hqne : q ≠ [] := by
        intro h
        exact hlast (by simp [h])
      rw [show encodeArgs ([] : List (List Int)) = [] from rfl]
      rw [List.append_nil, scanParams_zero_ne_nil q hqne]
      rw [List.takeWhile_eq_self_iff.mpr hq, List.dropWhile_eq_nil_iff.mpr hq]
      simp
    | cons t0 t1 =>
      have hne : q ++ encodeArgs (t0 :: t1) ≠ [] := by
        simp [encodeArgs_cons]
      rw [scanParams_zero_ne_nil _ hne, encodeArgs_cons]
      rw [takeWhile_append_of_all _ q _ hq, dropWhile_append_of_all _ q _ hq]
      rw [List.takeWhile_cons_of_neg (by simp), List.dropWhile_cons_of_neg (by simp)]
      rw [List.append_nil, ← encodeArgs_cons]
      rw [scanParams_encodeArgs (t0 :: t1)
        (fun r hr => hnull r (List.mem_cons_of_mem q hr))
        (by simpa using hlast)]

/-- C1 (counterexample): the round trip fails for the parameter sequence
consisting of a single empty string.  The client encodes `(GetTime, [""])`
as the two bytes `[1, 0]`, and the server decoder drops the trailing empty
run, returning no parameters at all. -/
theorem request_roundtrip_cex :
    decode (incode ⟨ReqCode.getTime, [[]]⟩) ≠
      ⟨ReqCode.getTime.toByte, [[]]⟩ := by
  simp [incode, encodeArgs, decode, ReqCode.toByte]

/-- C1 (amended): request-frame round trip.  For every `ReqCode` and every
ordered sequence of parameters in which no parameter contains a null byte
and the final parameter (if any) is non-empty, decoding the client-side
encoding yields exactly the original code byte and the original parameter
sequence. -/
theorem request_roundtrip (c : ReqCode) (ps : List (List Int))
    (hnull : ∀ q ∈ ps, (0 : Int) ∉ q) (hlast : ps.getLast? ≠ some []) :
    decode (incode ⟨c, ps⟩) = ⟨c.toByte, ps⟩ := by
  unfold incode decode
  simp only [List.tail_cons]
  rw [scanParams_encodeArgs ps hnull hlast]

/-- C1 (witness): the round trip at the concrete request
`(GetTimeWithoutDateInCity, ["ber"])`. -/
theorem request_roundtrip_witness :
    decode (incode ⟨ReqCode.getTimeWithoutDateInCity, [[98, 101, 114]]⟩) =
      ⟨ReqCode.getTimeWithoutDateInCity.toByte, [[98, 101, 114]]⟩ :=
  request_roundtrip ReqCode.getTimeWithoutDateInCity [[98, 101, 114]]
    (by decide) (by decide)

/-- C5: the server's dispatch of a `GetTimeWithoutDateInCity` request (code
12) reads the first parameter unconditionally: on an empty parameter
vector the access `req.params[0]` is out of bounds (the MissingParameter
case is not handled), and whenever at least one parameter is present the
handler receives exactly the first parameter. -/
theorem city_dispatch_param_access :
    (∀ a p, dispatch ⟨12, []⟩ a p = .oobParamAccess) ∧
      ∀ c cs a p, dispatch ⟨12, c :: cs⟩ a p =
        .sends (.getTimeWithoutDateInCity c) := by
  constructor <;> intros <;> rfl

/-- C6 (counterexample): a datagram consisting of the single null byte
`0x00` does not decode to request code `Error`(−1): its code is the first
byte, 0 (= `Default`), and only the empty datagram decodes to −1. -/
theorem allnull_code_cex : (decode [0]).code ≠ -1 := by
  simp [decode]

/-- C6 (amended): decoding the empty datagram yields code `Error`(−1);
decoding a non-empty all-null datagram (e.g. the single byte `0x00`)
yields code `Default`(0).  Neither code has a dispatch handler, so both
datagrams are silently dropped with no response. -/
theorem allnull_datagram (bs : List Int) (a p : Nat) (h : ∀ b ∈ bs, b = 0) :
    (decode bs).code = (if bs = [] then -1 else 0) ∧
      dispatch (decode bs) a p = .noResponse := by
  cases bs with
  | nil => exact ⟨by simp [decode], by rfl⟩
  | cons b rest =>
    have hb : b = 0 := h b (List.mem_cons_self b rest)
    subst hb
    exact ⟨by simp [decode], by rfl⟩

/-- C6 (witness): the amended statement at the concrete all-null datagram
`[0x00, 0x00]` and a concrete sender endpoint. -/
theorem allnull_datagram_witness :
    (decode [0, 0]).code = (if ([0, 0] : List Int) = [] then -1 else 0) ∧
      dispatch (decode [0, 0]) 5 7 = .noResponse :=
  allnull_datagram [0, 0] 5 7 (by decide)

/-- C7: every decoded request code outside the thirteen handled values
1..13 (in particular `Error` = −1 and `Default` = 0) falls through the
dispatch switch: no response datagram is sent and no error frame exists. -/
theorem unknown_code_silent_drop (code : Int) (params : List (List Int))
    (a p : Nat) (h : code < 1 ∨ 13 < code) :
    dispatch ⟨code, params⟩ a p = .noResponse := by
  show (if code = 1 then DispatchResult.sends .getTime
    else if code = 2 then .sends .getTimeWithoutDate
    else if code = 3 then .sends .getTimeSinceEpoch
    else if code = 4 then .sends .getClientToServerDelayEstimation
    else if code = 5 then .sends .measureRTT
    else if code = 6 then .sends .getTimeWithoutDateOrSeconds
    else if code = 7 then .sends .getYear
    else if code = 8 then .sends .getMonthAndDay
    else if code = 9 then .sends .getSecondsSinceBeginningOfMonth
    else if code = 10 then .sends .getWeekOfYear
    else if code = 11 then .sends .getDaylightSavings
    else if code = 12 then
      match params with
      | [] => .oobParamAccess
      | c :: _ => .sends (.getTimeWithoutDateInCity c)
    else if code = 13 then .sends (.measureTimeLap a p)
    else .noResponse) = .noResponse
  rw [if_neg (show ¬code = 1 by omega), if_neg (show ¬code = 2 by omega),
    if_neg (show ¬code = 3 by omega), if_neg (show ¬code = 4 by omega),
    if_neg (show ¬code = 5 by omega), if_neg (show ¬code = 6 by omega),
    if_neg (show ¬code = 7 by omega), if_neg (show ¬code = 8 by omega),
    if_neg (show ¬code = 9 by omega), if_neg (show ¬code = 10 by omega),
    if_neg (show ¬code = 11 by omega), if_neg (show ¬code = 12 by omega),
    if_neg (show ¬code = 13 by omega)]

/-- C7 (witness): the silent drop at the concrete unhandled code −1 (and,
for good measure, the byte 0xFF interpreted as char is −1). -/
theorem unknown_code_silent_drop_witness :
    dispatch ⟨-1, []⟩ 0 0 = .noResponse :=
  unknown_code_silent_drop (-1) [] 0 0 (by norm_num)

/-- Prepending zero bytes does not change the big-endian value. -/
theorem beVal_replicate_zero (k : Nat) (l : List Nat) :
    beVal (List.replicate k 0 ++ l) = beVal l := by
  induction k with
  | zero => simp
  | succ n ih =>
    simpa [beVal, List.replicate_succ, List.foldl_cons] using ih

/-- `toBytes` on a value with a non-zero top byte keeps all four bytes. -/
theorem toBytes_of_ge24 (v : Nat) (h1 : v < 4294967296) (h2 : 16777216 ≤ v) :
    toBytes v = [v / 16777216, v / 65536 % 256, v / 256 % 256, v % 256] := by
  unfold toBytes
  simp only [Nat.mod_eq_of_lt h1]
  rw [List.dropWhile_cons_of_neg]
  simp only [decide_eq_true_eq]
  omega

/-- `toBytes` on a three-byte value strips exactly the top zero byte. -/
theorem toBytes_of_ge16 (v : Nat) (h1 : v < 16777216) (h2 : 65536 ≤ v) :
    toBytes v = [v / 65536 % 256, v / 256 % 256, v % 256] := by
  unfold toBytes
  have hm : v % 4294967296 = v := Nat.mod_eq_of_lt (by omega)
  simp only [hm]
  rw [List.dropWhile_cons_of_pos (by simp only [decide_eq_true_eq]; omega)]
  rw [List.dropWhile_cons_of_neg]
  simp only [decide_eq_true_eq]
  omega

/-- `toBytes` on a two-byte value strips exactly the top two zero bytes. -/
theorem toBytes_of_ge8 (v : Nat) (h1 : v < 65536) (h2 : 256 ≤ v) :
    toBytes v = [v / 256 % 256, v % 256] := by
  unfold toBytes
  have hm : v % 4294967296 = v := Nat.mod_eq_of_lt (by omega)
  simp only [hm]
  rw [List.dropWhile_cons_of_pos (by simp only [decide_eq_true_eq]; omega)]
  rw [List.dropWhile_cons_of_pos (by simp only [decide_eq_true_eq]; omega)]
  rw [List.dropWhile_cons_of_neg]
  simp only [decide_eq_true_eq]
  omega

/-- `toBytes` on a one-byte non-zero value strips the top three zero bytes. -/
theorem toBytes_of_ge1 (v : Nat) (h1 : v < 256) (h2 : 1 ≤ v) :
    toBytes v = [v % 256] := by
  unfold toBytes
  have hm : v % 4294967296 = v := Nat.mod_eq_of_lt (by omega)
  simp only [hm]
  rw [List.dropWhile_cons_of_pos (by simp only [decide_eq_true_eq]; omega)]
  rw [List.dropWhile_cons_of_pos (by simp only [decide_eq_true_eq]; omega)]
  rw [List.dropWhile_cons_of_pos (by simp only [decide_eq_true_eq]; omega)]
  rw [List.dropWhile_cons_of_neg]
  simp only [decide_eq_true_eq]
  omega

/-- C2 (counterexample): encoding the value 0 does not produce one byte:
all four zero bytes are stripped, so `toBytes 0` is the empty byte
sequence, of length 0, not `max 1 (ceil(bitlength 0 / 8)) = 1`. -/
theorem toBytes_zero_cex :
    toBytes 0 = [] ∧ (toBytes 0).length ≠ max 1 ((Nat.size 0 + 7) / 8) := by
  constructor
  · rfl
  · rw [show toBytes 0 = [] from rfl]
    simp [Nat.size_zero]

/-- C2 (amended): for every uint32 `v` the encoder output has length
`ceil(bitlength(v) / 8)` with no one-byte minimum: in particular encoding
`v = 0` emits the empty byte sequence (zero bytes), not a single 0x00. -/
theorem toBytes_length (v : Nat) (h : v < 2 ^ 32) :
    (toBytes v).length = (Nat.size v + 7) / 8 := by
  have h' : v < 4294967296 := by omega
  by_cases h24 : 16777216 ≤ v
  · have hs1 : 24 < Nat.size v := Nat.lt_size.mpr (by norm_num; omega)
    have hs2 : Nat.size v ≤ 32 := Nat.size_le.mpr (by norm_num; omega)
    rw [toBytes_of_ge24 v h' h24]
    simp only [List.length_cons, List.length_nil]
    omega
  · by_cases h16 : 65536 ≤ v
    · have hs1 : 16 < Nat.size v := Nat.lt_size.mpr (by norm_num; omega)
      have hs2 : Nat.size v ≤ 24 := Nat.size_le.mpr (by norm_num; omega)
      rw [toBytes_of_ge16 v (by omega) h16]
      simp only [List.length_cons, List.length_nil]
      omega
    · by_cases h8 : 256 ≤ v
      · have hs1 : 8 < Nat.size v := Nat.lt_size.mpr (by norm_num; omega)
        have hs2 : Nat.size v ≤ 16 := Nat.size_le.mpr (by norm_num; omega)
        rw [toBytes_of_ge8 v (by omega) h8]
        simp only [List.length_cons, List.length_nil]
        omega
      · by_cases h1 : 1 ≤ v
        · have hs1 : 0 < Nat.size v := Nat.lt_size.mpr (by norm_num; omega)
          have hs2 : Nat.size v ≤ 8 := Nat.size_le.mpr (by norm_num; omega)
          rw [toBytes_of_ge1 v (by omega) h1]
          simp only [List.length_cons, List.length_nil]
          omega
        · have hv : v = 0 := by omega
          subst hv
          rw [show toBytes 0 = [] from rfl]
          simp [Nat.size_zero]

/-- C2 (witness): the amended length law at the concrete value
1704628800 (bitlength 31, so 4 bytes). -/
theorem toBytes_length_witness :
    (toBytes 1704628800).length = (Nat.size 1704628800 + 7) / 8 :=
  toBytes_length 1704628800 (by norm_num)

/-- C3: bounded-integer round trip.  For every uint32 `v`, decoding the
encoder's output returns `v`.  (For `v = 0` the encoder output is empty
and `toUint32` takes its rejection branch, which returns 0 — the equation
still holds.) -/
theorem toUint32_toBytes (v : Nat) (h : v < 2 ^ 32) :
    toUint32 (toBytes v) = v := by
  have h' : v < 4294967296 := by omega
  by_cases h24 : 16777216 ≤ v
  · rw [toBytes_of_ge24 v h' h24]
    unfold toUint32
    rw [if_neg (by simp)]
    simp only [List.length_cons, List.length_nil]
    rw [show (4 : Nat) - 4 = 0 from rfl]
    rw [show List.replicate 0 (0 : Nat) = [] from rfl, List.nil_append]
    simp only [beVal, List.foldl_cons, List.foldl_nil]
    omega
  · by_cases h16 : 65536 ≤ v
    · rw [toBytes_of_ge16 v (by omega) h16]
      unfold toUint32
      rw [if_neg (by simp)]
      simp only [List.length_cons, List.length_nil]
      rw [show (4 : Nat) - 3 = 1 from rfl]
      rw [beVal_replicate_zero]
      simp only [beVal, List.foldl_cons, List.foldl_nil]
      omega
    · by_cases h8 : 256 ≤ v
      · rw [toBytes_of_ge8 v (by omega) h8]
        unfold toUint32
        rw [if_neg (by simp)]
        simp only [List.length_cons, List.length_nil]
        rw [show (4 : Nat) - 2 = 2 from rfl]
        rw [beVal_replicate_zero]
        simp only [beVal, List.foldl_cons, List.foldl_nil]
        omega
      · by_cases h1 : 1 ≤ v
        · rw [toBytes_of_ge1 v (by omega) h1]
          unfold toUint32
          rw [if_neg (by simp)]
          simp only [List.length_cons, List.length_nil]
          rw [show (4 : Nat) - 1 = 3 from rfl]
          rw [beVal_replicate_zero]
          simp only [beVal, List.foldl_cons, List.foldl_nil]
          omega
        · have hv : v = 0 := by omega
          subst hv
          rfl

/-- C3 (witness): the round trip at the concrete uint32 1704628800, and at
0 (where the encoder output is empty). -/
theorem toUint32_toBytes_witness :
    toUint32 (toBytes 1704628800) = 1704628800 ∧ toUint32 (toBytes 0) = 0 :=
  ⟨toUint32_toBytes 1704628800 (by norm_num), toUint32_toBytes 0 (by norm_num)⟩

/-- Key identifying a client endpoint for lap timing (`EndpointKey` in
Server/utils.h): source address and port, both in network byte order. -/
structure EndpointKey where
  addr_be : Nat
  port_be : Nat
deriving DecidableEq

/-- The lap-timing storage `g_lap` (an `unordered_map` from endpoint to a
steady-clock instant), modelled as an association list from endpoint to
the stored instant in seconds.  The operations below preserve the
at-most-one-entry-per-key invariant of the map. -/
abbrev LapTable := List (EndpointKey × Nat)

/-- `g_lap.find(key)`: the stored instant for an endpoint, if present. -/
def lapFind : LapTable → EndpointKey → Option Nat
  | [], _ => none
  | (k, t) :: rest, key => if k = key then some t else lapFind rest key

/-- `g_lap.erase(it)`: remove the endpoint's entry. -/
def lapErase : LapTable → EndpointKey → LapTable
  | [], _ => []
  | (k, t) :: rest, key => if k = key then rest else (k, t) :: lapErase rest key

/-- The expiry sweep at the top of `MeasureTimeLap`: erase every entry
whose stored instant is more than 180 seconds before `now` (keep an entry
iff its elapsed time is at most 180 seconds). -/
def purgeLaps (now : Nat) (tbl : LapTable) : LapTable :=
  tbl.filter (fun e => decide (now - e.2 ≤ 180))

/-- Result of one `MeasureTimeLap` call: timer started, or elapsed seconds
since the stored instant (the C++ renders these as the strings
"Timer started" and zero-padded `MM:SS` respectively). -/
inductive LapResult where
  | started
  | elapsed (sec : Nat)
deriving DecidableEq

/-- `MeasureTimeLap` (Server/utils.h), with the global map passed as
explicit state and the steady-clock reading `now` injected: purge expired
entries; then if the endpoint has no entry, insert `now` and start the
timer, otherwise report the elapsed seconds and remove the entry. -/
def MeasureTimeLap (tbl : LapTable) (key : EndpointKey) (now : Nat) :
    LapResult × LapTable :=
  match lapFind (purgeLaps now tbl) key with
  | none => (.started, (key, now) :: purgeLaps now tbl)
  | some t => (.elapsed (now - t), lapErase (purgeLaps now tbl) key)

/-- Filtering cannot create an entry for an absent key. -/
theorem lapFind_filter_none (tbl : LapTable) (key : EndpointKey)
    (p : EndpointKey × Nat → Bool) (h : lapFind tbl key = none) :
    lapFind (tbl.filter p) key = none := by
  induction tbl with
  | nil => simp [lapFind]
  | cons e rest ih =>
    obtain ⟨k, t⟩ := e
    rw [lapFind] at h
    by_cases hk : k = key
    · simp [hk] at h
    · rw [if_neg hk] at h
      rw [List.filter_cons]
      split
      · rw [lapFind, if_neg hk]
        exact ih h
      · exact ih h

/-- Filtering keeps the first entry of a key when that entry satisfies the
filter predicate. -/
theorem lapFind_filter_some (tbl : LapTable) (key : EndpointKey) (t : Nat)
    (p : EndpointKey × Nat → Bool) (h : lapFind tbl key = some t)
    (hp : p (key, t) = true) :
    lapFind (tbl.filter p) key = some t := by
  induction tbl with
  | nil => simp [lapFind] at h
  | cons e rest ih =>
    obtain ⟨k, u⟩ := e
    rw [lapFind] at h
    by_cases hk : k = key
    · rw [if_pos hk] at h
      obtain rfl : u = t := by injection h
      subst hk
      rw [List.filter_cons, if_pos hp, lapFind, if_pos rfl]
    · rw [if_neg hk] at h
      rw [List.filter_cons]
      split
      · rw [lapFind, if_neg hk]
        exact ih h
      · exact ih h

/-- Erasing one endpoint's entry does not change the lookup of another. -/
theorem lapFind_erase_ne (tbl : LapTable) (a b : EndpointKey) (h : a ≠ b) :
    lapFind (lapErase tbl a) b = lapFind tbl b := by
  induction tbl with
  | nil => rfl
  | cons e rest ih =>
    obtain ⟨k, t⟩ := e
    rw [lapErase]
    split
    · rename_i hk
      rw [lapFind, if_neg (by rw [hk]; exact h)]
    · rw [lapFind, lapFind]
      split
      · rfl
      · exact ih

/-- Every entry of the erased table was an entry of the original table. -/
theorem lapErase_subset (tbl : LapTable) (key : EndpointKey) :
    ∀ e ∈ lapErase tbl key, e ∈ tbl := by
  induction tbl with
  | nil => simp [lapErase]
  | cons a rest ih =>
    obtain ⟨k, t⟩ := a
    intro e he
    rw [lapErase] at he
    split at he
    · exact List.mem_cons_of_mem _ he
    · rcases List.mem_cons.mp he with h | h
      · exact h ▸ List.mem_cons_self _ _
      · exact List.mem_cons_of_mem _ (ih e h)

/-- A fresh-enough head entry survives the expiry sweep. -/
theorem purgeLaps_cons_keep (now : Nat) (e : EndpointKey × Nat)
    (tbl : LapTable) (h : now - e.2 ≤ 180) :
    purgeLaps now (e :: tbl) = e :: purgeLaps now tbl := by
  unfold purgeLaps
  rw [List.filter_cons, if_pos (by simpa using h)]

/-- An expired head entry is removed by the expiry sweep. -/
theorem purgeLaps_cons_drop (now : Nat) (e : EndpointKey × Nat)
    (tbl : LapTable) (h : 180 < now - e.2) :
    purgeLaps now (e :: tbl) = purgeLaps now tbl := by
  unfold purgeLaps
  rw [List.filter_cons, if_neg (by simp; omega)]

/-- `MeasureTimeLap` when the endpoint has no (unexpired) entry. -/
theorem MeasureTimeLap_start (tbl : LapTable) (key : EndpointKey) (now : Nat)
    (h : lapFind (purgeLaps now tbl) key = none) :
    MeasureTimeLap tbl key now = (.started, (key, now) :: purgeLaps now tbl) := by
  unfold MeasureTimeLap
  rw [h]


/-- `MeasureTimeLap` when the endpoint has an unexpired entry. -/
theorem MeasureTimeLap_elapsed (tbl : LapTable) (key : EndpointKey)
    (now t : Nat) (h : lapFind (purgeLaps now tbl) key = some t) :
    MeasureTimeLap tbl key now =
      (.elapsed (now - t), lapErase (purgeLaps now tbl) key) := by
  unfold MeasureTimeLap
  rw [h]

/-- C4: lap-timer state machine.  Starting from any table with no entry
for endpoint `E`: a touch at `t0` starts the timer; a second touch at
`t1 ≤ t0 + 180` reports `Elapsed (t1 − t0)` and removes `E`'s entry, so a
third touch (at any time `t2`) starts again; while a second touch at
`t1' > t0 + 180` finds the entry purged and starts again instead of
reporting an elapsed time. -/
theorem lap_state_machine (tbl : LapTable) (E : EndpointKey)
    (t0 t1 t2 t1' : Nat) (hE : lapFind tbl E = none) (h01 : t0 ≤ t1)
    (h1b : t1 ≤ t0 + 180) (h1' : t0 + 180 < t1') :
    (MeasureTimeLap tbl E t0).1 = .started ∧
    (MeasureTimeLap (MeasureTimeLap tbl E t0).2 E t1).1 = .elapsed (t1 - t0) ∧
    lapFind (MeasureTimeLap (MeasureTimeLap tbl E t0).2 E t1).2 E = none ∧
    (MeasureTimeLap (MeasureTimeLap (MeasureTimeLap tbl E t0).2 E t1).2 E t2).1
      = .started ∧
    (MeasureTimeLap (MeasureTimeLap tbl E t0).2 E t1').1 = .started := by
  have hp0 : lapFind (purgeLaps t0 tbl) E = none :=
    lapFind_filter_none tbl E _ hE
  have hstep0 := MeasureTimeLap_start tbl E t0 hp0
  have htbl1 : (MeasureTimeLap tbl E t0).2 = (E, t0) :: purgeLaps t0 tbl := by
    rw [hstep0]
  have hkeep : purgeLaps t1 ((E, t0) :: purgeLaps t0 tbl) =
      (E, t0) :: purgeLaps t1 (purgeLaps t0 tbl) :=
    purgeLaps_cons_keep t1 (E, t0) _ (by simp; omega)
  have hfind1 : lapFind (purgeLaps t1 ((E, t0) :: purgeLaps t0 tbl)) E
      = some t0 := by
    rw [hkeep, lapFind, if_pos rfl]
  have hstep1 := MeasureTimeLap_elapsed ((E, t0) :: purgeLaps t0 tbl) E t1 t0 hfind1
  have htbl2 : (MeasureTimeLap ((E, t0) :: purgeLaps t0 tbl) E t1).2 =
      purgeLaps t1 (purgeLaps t0 tbl) := by
    rw [hstep1, hkeep, lapErase, if_pos rfl]
  have hfind2 : lapFind (purgeLaps t1 (purgeLaps t0 tbl)) E = none :=
    lapFind_filter_none _ E _ hp0
  refine ⟨by rw [hstep0], ?_, ?_, ?_, ?_⟩
  · rw [htbl1, hstep1]
  · rw [htbl1, htbl2]
    exact hfind2
  · rw [htbl1, htbl2]
    rw [MeasureTimeLap_start _ E t2 (lapFind_filter_none _ E _ hfind2)]
  · rw [htbl1]
    have hdrop : purgeLaps t1' ((E, t0) :: purgeLaps t0 tbl) =
        purgeLaps t1' (purgeLaps t0 tbl) :=
      purgeLaps_cons_drop t1' (E, t0) _ (by simp; omega)
    rw [MeasureTimeLap_start _ E t1' (by
      rw [hdrop]
      exact lapFind_filter_none _ E _ hp0)]

/-- C4 (witness): the state machine at the concrete endpoint (1, 2) on the
empty table, touched at times 0, 150, 400 and (in the purged branch) 181. -/
theorem lap_state_machine_witness :
    (MeasureTimeLap [] ⟨1, 2⟩ 0).1 = .started ∧
    (MeasureTimeLap (MeasureTimeLap [] ⟨1, 2⟩ 0).2 ⟨1, 2⟩ 150).1
      = .elapsed (150 - 0) ∧
    lapFind (MeasureTimeLap (MeasureTimeLap [] ⟨1, 2⟩ 0).2 ⟨1, 2⟩ 150).2 ⟨1, 2⟩
      = none ∧
    (MeasureTimeLap
        (MeasureTimeLap (MeasureTimeLap [] ⟨1, 2⟩ 0).2 ⟨1, 2⟩ 150).2 ⟨1, 2⟩ 400).1
      = .started ∧
    (MeasureTimeLap (MeasureTimeLap [] ⟨1, 2⟩ 0).2 ⟨1, 2⟩ 181).1 = .started :=
  lap_state_machine [] ⟨1, 2⟩ 0 150 400 181 rfl (by decide) (by decide) (by decide)

/-- C9: lap-timer isolation and purge side effect.  A touch for endpoint
`A` never inserts, elapses or prematurely removes the entry of a distinct
endpoint `B`: a `B` entry at most 180 seconds old survives unchanged and
an absent `B` entry stays absent.  Moreover every touch purges all expired
entries: every entry of the post-call table is at most 180 seconds old. -/
theorem lap_isolation_and_purge (tbl : LapTable) (A B : EndpointKey)
    (now : Nat) (hAB : A ≠ B) :
    (∀ tB, lapFind tbl B = some tB → now ≤ tB + 180 →
      lapFind (MeasureTimeLap tbl A now).2 B = some tB) ∧
    (lapFind tbl B = none → lapFind (MeasureTimeLap tbl A now).2 B = none) ∧
    (∀ k t, (k, t) ∈ (MeasureTimeLap tbl A now).2 → now ≤ t + 180) := by
  have hpurged : ∀ e ∈ purgeLaps now tbl, now - e.2 ≤ 180 := by
    intro e he
    have := List.mem_filter.mp he
    simpa using this.2
  cases hA : lapFind (purgeLaps now tbl) A with
  | none =>
    rw [MeasureTimeLap_start tbl A now hA]
    refine ⟨?_, ?_, ?_⟩
    · intro tB hB hfresh
      have hpB : lapFind (purgeLaps now tbl) B = some tB :=
        lapFind_filter_some tbl B tB _ hB (by simp; omega)
      show lapFind ((A, now) :: purgeLaps now tbl) B = some tB
      rw [lapFind, if_neg hAB]
      exact hpB
    · intro hB
      have hpB : lapFind (purgeLaps now tbl) B = none :=
        lapFind_filter_none tbl B _ hB
      show lapFind ((A, now) :: purgeLaps now tbl) B = none
      rw [lapFind, if_neg hAB]
      exact hpB
    · intro k t hmem
      have hmem' : (k, t) ∈ (A, now) :: purgeLaps now tbl := hmem
      rcases List.mem_cons.mp hmem' with h | h
      · injection h with h1 h2
        omega
      · have := hpurged (k, t) h
        simp at this
        omega
  | some u =>
    rw [MeasureTimeLap_elapsed tbl A now u hA]
    refine ⟨?_, ?_, ?_⟩
    · intro tB hB hfresh
      have hpB : lapFind (purgeLaps now tbl) B = some tB :=
        lapFind_filter_some tbl B tB _ hB (by simp; omega)
      show lapFind (lapErase (purgeLaps now tbl) A) B = some tB
      rw [lapFind_erase_ne _ A B hAB]
      exact hpB
    · intro hB
      have hpB : lapFind (purgeLaps now tbl) B = none :=
        lapFind_filter_none tbl B _ hB
      show lapFind (lapErase (purgeLaps now tbl) A) B = none
      rw [lapFind_erase_ne _ A B hAB]
      exact hpB
    · intro k t hmem
      have hmem' : (k, t) ∈ lapErase (purgeLaps now tbl) A := hmem
      have := hpurged (k, t) (lapErase_subset _ A (k, t) hmem')
      simp at this
      omega

/-- C9 (witness): a touch by endpoint (1, 2) at time 20 leaves the
10-second-old entry of endpoint (9, 9) untouched. -/
theorem lap_isolation_witness :
    lapFind (MeasureTimeLap [(⟨9, 9⟩, 10)] ⟨1, 2⟩ 20).2 ⟨9, 9⟩ = some 10 :=
  (lap_isolation_and_purge [(⟨9, 9⟩, 10)] ⟨1, 2⟩ ⟨9, 9⟩ 20 (by decide)).1
    10 rfl (by decide)

/-- The C-locale `isspace` set used by `trimLower`/`trim_lower`: space,
tab, newline, vertical tab, form feed, carriage return. -/
def isSpaceChar (c : Char) : Bool :=
  c == ' ' || c == '\t' || c == '\n' || c == Char.ofNat 11 ||
    c == Char.ofNat 12 || c == '\r'

/-- The C-locale `tolower` used by `trimLower`: shift an upper-case ASCII
letter down by 32, leave every other character unchanged. -/
def toLowerChar (c : Char) : Char :=
  if 'A' ≤ c ∧ c ≤ 'Z' then Char.ofNat (c.toNat + 32) else c

/-- `trimLower` (Client/utils.cpp), textually identical to `trim_lower`
(Server/utils.h): erase leading and trailing whitespace, lower-case every
character, then replace each space with a hyphen. -/
def trimLower (s : List Char) : List Char :=
  let t := ((s.dropWhile isSpaceChar).reverse.dropWhile isSpaceChar).reverse
  (t.map toLowerChar).map (fun c => if c = ' ' then '-' else c)

/-- `normalizeCity` (Client/utils.cpp), textually identical to
`normalize_city` (Server/utils.h): trim/lower the input, then map the
recognized tokens and numeric aliases to the canonical city names, with
"utc" as the fallback. -/
def normalizeCity (s : List Char) : List Char :=
  let city := trimLower s
  if city = "doha".toList ∨ city = "1".toList then "doha".toList
  else if city = "prague".toList ∨ city = "2".toList then "prague".toList
  else if city = "new-york".toList ∨ city = "newyork".toList ∨
      city = "new york".toList ∨ city = "3".toList then "new-york".toList
  else if city = "berlin".toList ∨ city = "4".toList then "berlin".toList
  else "utc".toList

example : normalizeCity (" PRAGUE ".toList) = "prague".toList := by decide
example : normalizeCity ("2".toList) = "prague".toList := by decide
example : normalizeCity ("New York".toList) = "new-york".toList := by decide
example : normalizeCity ("Tokyo".toList) = "utc".toList := by decide

/-- C10: city normalization is closed over the five canonical tokens, and
since each token is a fixed point, it is idempotent. -/
theorem normalizeCity_closed_idem (s : List Char) :
    (normalizeCity s = "doha".toList ∨ normalizeCity s = "prague".toList ∨
      normalizeCity s = "new-york".toList ∨
      normalizeCity s = "berlin".toList ∨ normalizeCity s = "utc".toList) ∧
    normalizeCity (normalizeCity s) = normalizeCity s := by
  have hd : normalizeCity ("doha".toList) = "doha".toList := by decide
  have hp : normalizeCity ("prague".toList) = "prague".toList := by decide
  have hn : normalizeCity ("new-york".toList) = "new-york".toList := by decide
  have hb : normalizeCity ("berlin".toList) = "berlin".toList := by decide
  have hu : normalizeCity ("utc".toList) = "utc".toList := by decide
  have hmem : normalizeCity s = "doha".toList ∨
      normalizeCity s = "prague".toList ∨
      normalizeCity s = "new-york".toList ∨
      normalizeCity s = "berlin".toList ∨
      normalizeCity s = "utc".toList := by
    simp only [normalizeCity]
    split_ifs <;> simp
  refine ⟨hmem, ?_⟩
  rcases hmem with h | h | h | h | h <;> rw [h]
  · exact hd
  · exact hp
  · exact hn
  · exact hb
  · exact hu

/-- Gregorian leap-day count of year `y` (the calendar rule implemented by
the C runtime behind `mktime`, which `last_weekday_of_month` relies on). -/
def leapDay (y : Nat) : Nat :=
  if (y % 4 = 0 ∧ y % 100 ≠ 0) ∨ y % 400 = 0 then 1 else 0

/-- Days in month `m` (1..12) of Gregorian year `y`. -/
def daysInMonth (y m : Nat) : Nat :=
  match m with
  | 1 => 31 | 2 => 28 + leapDay y | 3 => 31 | 4 => 30 | 5 => 31 | 6 => 30
  | 7 => 31 | 8 => 31 | 9 => 30 | 10 => 31 | 11 => 30 | 12 => 31 | _ => 0

/-- Days in the months of year `y` that precede month `m`. -/
def daysBeforeMonth (y m : Nat) : Nat :=
  match m with
  | 1 => 0 | 2 => 31 | 3 => 59 + leapDay y | 4 => 90 + leapDay y
  | 5 => 120 + leapDay y | 6 => 151 + leapDay y | 7 => 181 + leapDay y
  | 8 => 212 + leapDay y | 9 => 243 + leapDay y | 10 => 273 + leapDay y
  | 11 => 304 + leapDay y | 12 => 334 + leapDay y | _ => 365 + leapDay y

/-- Days before January 1 of Gregorian year `y`, counted from year 1. -/
def daysBeforeYear (y : Nat) : Nat :=
  365 * (y - 1) + (y - 1) / 4 + (y - 1) / 400 - (y - 1) / 100

/-- Ordinal day number of a Gregorian date (1 Jan year 1 ↦ 1). -/
def dayNumber (y m d : Nat) : Nat := daysBeforeYear y + daysBeforeMonth y m + d

/-- Day of week of a Gregorian date, 0 = Sunday .. 6 = Saturday: the value
`mktime` places in `tm_wday` (1 Jan 0001 is a Monday). -/
def dayOfWeek (y m d : Nat) : Nat := dayNumber y m d % 7

example : dayOfWeek 2024 1 7 = 0 := by decide
example : daysInMonth 2000 2 = 29 := by decide
example : daysInMonth 1900 2 = 28 := by decide

/-- `last_weekday_of_month` (Server/utils.h): via `mktime` normalization
the code obtains the last day of the month (`tm_mday = 0` of the
following month) and the weekday of the 1st, then steps back from the
last day of the month to the requested weekday `wd` (0 = Sunday). -/
def last_weekday_of_month (y m wd : Nat) : Nat :=
  let last_dom := daysInMonth y m
  let first := dayOfWeek y m 1
  let last_wd := (first + (last_dom - 1)) % 7
  let delta := (7 + last_wd - wd) % 7
  last_dom - delta

example : last_weekday_of_month 2024 3 0 = 31 := by decide
example : last_weekday_of_month 2024 10 0 = 27 := by decide
example : last_weekday_of_month 2025 3 0 = 30 := by decide
example : last_weekday_of_month 2025 10 0 = 26 := by decide

/-- Day-of-week advances by one per day within a month. -/
theorem dayOfWeek_shift (y m d : Nat) (hd : 1 ≤ d) :
    dayOfWeek y m d = (dayOfWeek y m 1 + (d - 1)) % 7 := by
  unfold dayOfWeek dayNumber
  omega

/-- `last_weekday_of_month` lands on the requested weekday, within the
last seven days of the month. -/
theorem last_weekday_spec (y m wd : Nat) (hwd : wd < 7)
    (hdom : 7 ≤ daysInMonth y m) :
    1 ≤ last_weekday_of_month y m wd ∧
    last_weekday_of_month y m wd ≤ daysInMonth y m ∧
    daysInMonth y m < last_weekday_of_month y m wd + 7 ∧
    dayOfWeek y m (last_weekday_of_month y m wd) = wd := by
  have hf7 : dayOfWeek y m 1 < 7 := by
    unfold dayOfWeek
    exact Nat.mod_lt _ (by norm_num)
  simp only [last_weekday_of_month]
  refine ⟨by omega, by omega, by omega, ?_⟩
  rw [dayOfWeek_shift y m _ (by omega)]
  omega

/-- The spec-side notion "`d` is the last Sunday of month `m` of year
`y`": a valid day of the month that is a Sunday, with no later Sunday in
the month. -/
def isLastSundayOf (y m d : Nat) : Prop :=
  1 ≤ d ∧ d ≤ daysInMonth y m ∧ dayOfWeek y m d = 0 ∧
    ∀ e, e < daysInMonth y m + 1 → d < e → dayOfWeek y m e ≠ 0

instance (y m d : Nat) : Decidable (isLastSundayOf y m d) := by
  unfold isLastSundayOf
  infer_instance

example : isLastSundayOf 2024 3 31 := by decide
example : isLastSundayOf 2024 10 27 := by decide

/-- The code's `last_weekday_of_month _ _ 0` is the unique last Sunday. -/
theorem isLastSundayOf_eq (y m d : Nat) (hdom : 7 ≤ daysInMonth y m)
    (h : isLastSundayOf y m d) : d = last_weekday_of_month y m 0 := by
  obtain ⟨h1, h2, h3, h4⟩ := h
  obtain ⟨g1, g2, g3, g4⟩ := last_weekday_spec y m 0 (by norm_num) hdom
  rcases Nat.lt_or_ge d (last_weekday_of_month y m 0) with hlt | hge
  · exact absurd g4 (h4 _ (by omega) hlt)
  · rw [dayOfWeek_shift y m d h1] at h3
    rw [dayOfWeek_shift y m _ g1] at g4
    omega

/-- A broken-down UTC instant, with the fields carried as their 1-based
values (`tm_year + 1900`, `tm_mon + 1`, `tm_mday`, `tm_hour`, `tm_min`,
`tm_sec`). -/
structure UtcTime where
  year : Nat
  mon : Nat
  mday : Nat
  hour : Nat
  minute : Nat
  sec : Nat
deriving DecidableEq

/-- `is_dst_eu` (Server/utils.h): the EU daylight-saving predicate on a
broken-down UTC time; compares month, then day against the last Sunday of
March / October, then the hour against 01:00 UTC. -/
def is_dst_eu (utc : UtcTime) : Bool :=
  let y := utc.year
  let start := last_weekday_of_month y 3 0
  let stop := last_weekday_of_month y 10 0
  let mon := utc.mon
  let day := utc.mday
  let h := utc.hour
  if mon < 3 ∨ mon > 10 then false
  else if mon > 3 ∧ mon < 10 then true
  else if mon = 3 then decide (day > start ∨ (day = start ∧ h ≥ 1))
  else if mon = 10 then decide (day < stop ∨ (day = stop ∧ h < 1))
  else false

/-- Seconds from the start of year `y` to a UTC instant of that year;
instants of one year compare chronologically through this value. -/
def secOfYear (t : UtcTime) : Nat :=
  ((daysBeforeMonth t.year t.mon + (t.mday - 1)) * 24 + t.hour) * 3600 +
    t.minute * 60 + t.sec

/-- C8: EU DST window.  For every valid UTC instant, `is_dst_eu` holds
exactly when the instant lies in the half-open window from the last
Sunday of March 01:00 UTC (inclusive) to the last Sunday of October 01:00
UTC (exclusive) of its year, the two boundary days being characterized
independently as last Sundays. -/
theorem is_dst_eu_window (t : UtcTime) (ms os : Nat)
    (hms : isLastSundayOf t.year 3 ms) (hos : isLastSundayOf t.year 10 os)
    (hmon1 : 1 ≤ t.mon) (hmon2 : t.mon ≤ 12)
    (hday1 : 1 ≤ t.mday) (hday2 : t.mday ≤ daysInMonth t.year t.mon)
    (hh : t.hour < 24) (hmi : t.minute < 60) (hs : t.sec < 60) :
    is_dst_eu t = true ↔
      (secOfYear ⟨t.year, 3, ms, 1, 0, 0⟩ ≤ secOfYear t ∧
        secOfYear t < secOfYear ⟨t.year, 10, os, 1, 0, 0⟩) := by
  obtain ⟨y, mon, day, hr, mi, s⟩ := t
  simp only at hms hos hmon1 hmon2 hday1 hday2 hh hmi hs
  have hms' : ms = last_weekday_of_month y 3 0 :=
    isLastSundayOf_eq y 3 ms (by simp [daysInMonth]) hms
  have hos' : os = last_weekday_of_month y 10 0 :=
    isLastSundayOf_eq y 10 os (by simp [daysInMonth]) hos
  have hb3 : 25 ≤ ms ∧ ms ≤ 31 := by
    have := last_weekday_spec y 3 0 (by norm_num) (by simp [daysInMonth])
    simp only [daysInMonth] at this
    omega
  have hb10 : 25 ≤ os ∧ os ≤ 31 := by
    have := last_weekday_spec y 10 0 (by norm_num) (by simp [daysInMonth])
    simp only [daysInMonth] at this
    omega
  have hl : leapDay y = 0 ∨ leapDay y = 1 := by
    unfold leapDay
    split <;> simp
  simp only [is_dst_eu, secOfYear, ← hms', ← hos']
  interval_cases mon <;>
    simp only [daysInMonth] at hday2 <;>
    simp only [daysBeforeMonth] <;>
    norm_num <;>
    omega

/-- C8 (witness): the window equivalence at the concrete instant
2024-07-15 12:00:00 UTC, with the 2024 boundaries March 31 and
October 27. -/
theorem is_dst_eu_window_witness :
    is_dst_eu ⟨2024, 7, 15, 12, 0, 0⟩ = true ↔
      (secOfYear ⟨2024, 3, 31, 1, 0, 0⟩ ≤ secOfYear ⟨2024, 7, 15, 12, 0, 0⟩ ∧
        secOfYear ⟨2024, 7, 15, 12, 0, 0⟩ < secOfYear ⟨2024, 10, 27, 1, 0, 0⟩) :=
  is_dst_eu_window ⟨2024, 7, 15, 12, 0, 0⟩ 31 27 (by decide) (by decide)
    (by norm_num) (by norm_num) (by norm_num) (by decide) (by norm_num)
    (by norm_num) (by norm_num)
